import Mathlib

/-!
# helm/action: `install.go` and `update.go`

A shallow embedding of the two source files of package `action`.

* Go functions that only return become functions `State → result × State`.
* Go functions that may call `log.Die` return an `Outcome`, which is either
  `ok` (the function returned) or `died` (the process was terminated).
* Everything the package calls but does not define (the operating system, the
  `kubectl` child process, the `vcs` library, and the functions and constants of
  this repository that live in other files) is either a field of `Env` or one of
  the small operating-system models below (`path/filepath`, a file tree with a
  working directory and kernel-style path resolution).
* `State.calls` is the list of calls the program has made, oldest first, each
  with the result it got.  The oracles in `Env` may read the whole state, so a
  result may depend on everything that happened before.
* `log.Info` and `log.Debug` only print; they are left out.
-/

namespace Helm

/-! ## Values -/

/-- A Go `error` value. -/
inductive Error
  | notExist (path : String)
  | notDirectory (path : String)
  | exist (path : String)
  | exitStatus (code : Nat)
  | other (msg : String)
  deriving DecidableEq, Repr

/-- A Go `[]byte`, each byte by its numeric value. -/
abbrev Bytes := List Nat

/-- The result of running a function that may terminate the process. -/
inductive Outcome (σ α : Type)
  | ok (a : α) (s : σ)
  | died (msg : String) (s : σ)

/-- The state in which the function returned or the process was terminated. -/
def Outcome.state {σ α : Type} : Outcome σ α → σ
  | .ok _ s => s
  | .died _ s => s

/-- Whether the process was terminated. -/
def Outcome.isDied {σ α : Type} : Outcome σ α → Bool
  | .ok _ _ => false
  | .died _ _ => true

/-! ## `path/filepath` on Unix -/

/-- Split at every `/`. -/
def splitSep : List Char → List (List Char)
  | [] => [[]]
  | c :: cs =>
    if c = '/' then [] :: splitSep cs
    else match splitSep cs with
      | [] => [[c]]
      | e :: es => (c :: e) :: es

/-- The elements of a path between separators (empty ones included). -/
def elems (path : String) : List String := (splitSep path.data).map String.mk

/-- One step of `Clean`: `stack` holds the elements kept so far, last one first. -/
def cleanStep (rooted : Bool) (stack : List String) (e : String) : List String :=
  if e = "" ∨ e = "." then stack
  else if e = ".." then
    match stack with
    | [] => if rooted then [] else [".."]
    | top :: rest => if top = ".." then ".." :: stack else rest
  else e :: stack

/-- The elements of a path after lexical cleaning. -/
def cleanElems (rooted : Bool) (es : List String) : List String :=
  (es.foldl (cleanStep rooted) []).reverse

/-- `filepath.IsAbs`. -/
def IsAbs (path : String) : Bool :=
  match path.data with
  | c :: _ => c == '/'
  | [] => false

/-- `filepath.Clean`. -/
def Clean (path : String) : String :=
  let es := cleanElems (IsAbs path) (elems path)
  if IsAbs path then "/" ++ "/".intercalate es
  else if es = [] then "." else "/".intercalate es

/-- `filepath.Join`: leading empty elements are skipped, the rest is joined with
`/` and cleaned; no non-empty element gives the empty string. -/
def Join (elem : List String) : String :=
  match elem.dropWhile (fun e => e == "") with
  | [] => ""
  | rest => Clean ("/".intercalate rest)

/-! ## The file tree

A model of the part of a Unix file system the package touches: directories and
regular files, no symbolic links and no permissions.  Paths are resolved the way
the kernel does it, element by element: every element is looked up in the
location reached so far, which must be a directory.
-/

/-- What lives at a location. -/
inductive Node
  | file
  | dir
  deriving DecidableEq, Repr

/-- The part of `os.FileInfo` the package reads. -/
structure FileInfo where
  IsDir : Bool
  deriving DecidableEq, Repr

/-- The file tree and the working directory of the process.  A location is the
list of names leading to it from the root; the root is `[]`. -/
structure FS where
  nodes : List String → Option Node
  cwd : List String

/-- Whether a directory lives at a location. -/
def FS.isDir (fs : FS) (loc : List String) : Bool :=
  fs.nodes loc == some Node.dir

/-- Walk the elements of a path from `loc`.  Each element is looked up in the
current location, which must be a directory: an empty element or `.` stays,
`..` goes to the parent (the root is its own parent), a name goes to the child,
which need not exist. -/
def FS.walk (fs : FS) : List String → List String → Option (List String)
  | loc, [] => some loc
  | loc, e :: es =>
    if fs.isDir loc then
      if e = "" ∨ e = "." then FS.walk fs loc es
      else if e = ".." then FS.walk fs loc.dropLast es
      else FS.walk fs (loc ++ [e]) es
    else none

/-- Where resolution of a path starts: the root for an absolute path, the
working directory for a relative one. -/
def FS.start (fs : FS) (path : String) : List String :=
  if IsAbs path then [] else fs.cwd

/-- The location a path string denotes, when every element before the last can
be walked; the empty path denotes nothing. -/
def FS.resolve (fs : FS) (path : String) : Option (List String) :=
  if path = "" then none else fs.walk (fs.start path) (elems path)

/-- What lives at a path, if anything. -/
def FS.lookup (fs : FS) (path : String) : Option Node :=
  (fs.resolve path).bind fs.nodes

/-- `os.Stat` (and `os.Lstat`, there being no symbolic links). -/
def Stat (fs : FS) (path : String) : Except Error FileInfo :=
  match fs.lookup path with
  | none => .error (.notExist path)
  | some n => .ok { IsDir := n == Node.dir }

/-- `os.Mkdir`: creates one directory in an existing directory.  Trailing
separators are ignored; the last element must be a name that does not exist yet. -/
def Mkdir (fs : FS) (path : String) : Except Error FS :=
  let es := (elems path).rdropWhile (fun e => e == "")
  match es.getLast? with
  | none => .error (if path = "" then .notExist path else .exist path)
  | some name =>
    match fs.walk (fs.start path) es.dropLast with
    | none => .error (.notExist path)
    | some parent =>
      if fs.isDir parent = false then .error (.notDirectory path)
      else if name = "." ∨ name = ".." ∨ (fs.nodes (parent ++ [name])).isSome then
        .error (.exist path)
      else .ok { fs with
        nodes := fun loc => if loc = parent ++ [name] then some Node.dir else fs.nodes loc }

/-- The path `MkdirAll` creates first: `path[0:j-1]`, where trailing separators
are skipped and `j` is where the last element starts; none unless `j > 1`. -/
def MkdirAll.parent (path : String) : Option String :=
  let before := (path.data.reverse.dropWhile (fun c => c == '/')).dropWhile (fun c => c != '/')
  if 1 < before.length then some (String.mk before.tail.reverse) else none

/-- The body of `os.MkdirAll`; each recursive call is on a shorter path. -/
def MkdirAll.go : Nat → FS → String → Option Error × FS
  | 0, fs, _ => (some (.other "path too long"), fs)
  | fuel + 1, fs, path =>
    match Stat fs path with
    | .ok fi => if fi.IsDir then (none, fs) else (some (.notDirectory path), fs)
    | .error _ =>
      let made : Option Error × FS :=
        match MkdirAll.parent path with
        | some parent => MkdirAll.go fuel fs parent
        | none => (none, fs)
      match made with
      | (some err, fs1) => (some err, fs1)
      | (none, fs1) =>
        match Mkdir fs1 path with
        | .ok fs2 => (none, fs2)
        | .error err =>
          match Stat fs1 path with
          | .ok fi => if fi.IsDir then (none, fs1) else (some err, fs1)
          | .error _ => (some err, fs1)

/-- `os.MkdirAll`: its error and the file tree it leaves.  If the path is a
directory it does nothing; if it is a file it fails; otherwise it creates the
parent path first and then the directory itself. -/
def MkdirAll (fs : FS) (path : String) : Option Error × FS :=
  MkdirAll.go (path.length + 1) fs path

/-- `os.Chdir`. -/
def Chdir (fs : FS) (path : String) : Except Error FS :=
  match fs.resolve path with
  | none => .error (.notExist path)
  | some loc =>
    if fs.isDir loc then .ok { fs with cwd := loc } else .error (.notDirectory path)

/-- `os.Getwd`. -/
def Getwd (fs : FS) : Except Error String :=
  if fs.isDir fs.cwd then .ok ("/" ++ "/".intercalate fs.cwd)
  else .error (.notExist ".")

/-- `filepath.Abs`. -/
def Abs (fs : FS) (path : String) : Except Error String :=
  if IsAbs path then .ok (Clean path)
  else match Getwd fs with
    | .error err => .error err
    | .ok wd => .ok (Join [wd, path])

/-- The second file tree has everything the first has, and the same working
directory. -/
def FS.grows (fs fs1 : FS) : Prop :=
  fs1.cwd = fs.cwd ∧ ∀ loc n, fs.nodes loc = some n → fs1.nodes loc = some n

/-! ## Charts, calls and the environment -/

/-- `model.Chart`: the six sequences `uploadManifests` reads.  `ρ` is the type of
the values handed to `manifest.MarshalJSON`. -/
structure Chart (ρ : Type) where
  Namespaces : List ρ
  Secrets : List ρ
  PersistentVolumes : List ρ
  Services : List ρ
  Pods : List ρ
  ReplicationControllers : List ρ

/-- `vcs.GitRepo`. -/
structure GitRepo where
  remote : String
  dir : String
  deriving DecidableEq, Repr

/-- How waiting on a child process ended. -/
inductive WaitStatus
  | exited (code : Nat)
  | failed (err : Error)
  deriving DecidableEq, Repr

/-- The error `(*exec.Cmd).Wait` returns: nil exactly for exit status zero. -/
def WaitStatus.err : WaitStatus → Option Error
  | .exited 0 => none
  | .exited (n + 1) => some (.exitStatus (n + 1))
  | .failed err => some err

/-- A call made by the package, with its result. -/
inductive Call (ρ : Type)
  | Fetch (chart lname homedir : String)
  | Load (dir : String) (res : Except Error (Chart ρ))
  | MarshalJSON (o : ρ) (version : String)
  | kubectlCreate (data : Bytes) (res : Option Error)
  | Command (name : String) (args : List String)
  | StdinPipe (res : Option Error)
  | Start (res : Option Error)
  | Write (data : Bytes) (res : Option Error)
  | Close
  | Wait (status : WaitStatus)
  | NewGitRepo (remote dir : String) (res : Except Error GitRepo)
  | CheckLocal (git : GitRepo) (res : Bool)
  | Get (git : GitRepo) (res : Option Error)
  | Update (git : GitRepo) (res : Option Error)

/-- The file tree together with the calls made so far, oldest first. -/
structure State (ρ : Type) where
  fs : FS
  calls : List (Call ρ)

/-- Append a call to the record. -/
def State.record {ρ : Type} (s : State ρ) (c : Call ρ) : State ρ :=
  { s with calls := s.calls ++ [c] }

/-- The calls recorded in `s2` after those of `s1`. -/
def callsSince {ρ : Type} (s1 s2 : State ρ) : List (Call ρ) :=
  s2.calls.drop s1.calls.length

/-- Everything the two files use but do not define. -/
structure Env (ρ : Type) where
  /-- Package variable `helmpaths` (declared in another file). -/
  helmpaths : List String
  /-- Package constant `WorkspaceChartPath` (declared in another file). -/
  WorkspaceChartPath : String
  /-- Package constant `CachePath` (declared in another file). -/
  CachePath : String
  /-- Function `manifest.MarshalJSON`. -/
  MarshalJSON : ρ → String → Except Error Bytes
  /-- Function `model.Load`. -/
  Load : State ρ → String → Except Error (Chart ρ)
  /-- Function `Fetch` of this package: it returns or dies, and leaves a file tree. -/
  Fetch : State ρ → String → String → String → Outcome FS Unit
  /-- Function `exec.LookPath`. -/
  LookPath : State ρ → String → Except Error String
  /-- Result of `(*exec.Cmd).StdinPipe`. -/
  StdinPipe : State ρ → Option Error
  /-- Result of `(*exec.Cmd).Start`. -/
  Start : State ρ → Option Error
  /-- Result of writing to the stdin pipe. -/
  Write : State ρ → Bytes → Option Error
  /-- How the child ends when `(*exec.Cmd).Wait` is called. -/
  Wait : State ρ → WaitStatus
  /-- Function `vcs.NewGitRepo`. -/
  NewGitRepo : State ρ → String → String → Except Error GitRepo
  /-- Method `(*vcs.GitRepo).CheckLocal`. -/
  CheckLocal : State ρ → GitRepo → Bool
  /-- Method `(*vcs.GitRepo).Get`: its error and the file tree it leaves. -/
  Get : State ρ → GitRepo → Option Error × FS
  /-- Method `(*vcs.GitRepo).Update`: its error and the file tree it leaves. -/
  Update : State ρ → GitRepo → Option Error × FS

/-- Modelled from the spec: `log.Die` (package `log` is not among the sources).
Section 7: the workflow functions "log a fatal diagnostic and terminate the
process immediately". -/
def Die {ρ α : Type} (msg : String) (s : State ρ) : Outcome (State ρ) α :=
  .died msg s

variable {ρ : Type}

/-! ## install.go -/

/-- `kubectlCreate` returning `res`: the call and its result are recorded. -/
def kubectlCreate.returns (data : Bytes) (res : Option Error) (s : State ρ) :
    Option Error × State ρ :=
  (res, s.record (.kubectlCreate data res))

/-- `kubectlCreate` calls `kubectl create` and sends the data via stdin.  The
results of `in.Write` and `in.Close` are discarded, as in the source. -/
def kubectlCreate (env : Env ρ) (data : Bytes) (s : State ρ) : Option Error × State ρ :=
  let s := s.record (.Command "kubectl" ["create", "-f", "-"])
  match env.StdinPipe s with
  | some err => kubectlCreate.returns data (some err) (s.record (.StdinPipe (some err)))
  | none =>
    let s := s.record (.StdinPipe none)
    match env.Start s with
    | some err => kubectlCreate.returns data (some err) (s.record (.Start (some err)))
    | none =>
      let s := s.record (.Start none)
      let s := s.record (.Write data (env.Write s data))
      let s := s.record .Close
      let w := env.Wait s
      kubectlCreate.returns data w.err (s.record (.Wait w))

/-- One `for _, o := range xs` loop of `uploadManifests`; a `return err` in the
body leaves the function, which the caller sees as `some err`. -/
def uploadEach (env : Env ρ) : List ρ → State ρ → Option Error × State ρ
  | [], s => (none, s)
  | o :: rest, s =>
    let s := s.record (.MarshalJSON o "v1")
    match env.MarshalJSON o "v1" with
    | .error err => (some err, s)
    | .ok b =>
      match kubectlCreate env b s with
      | (some err, s) => (some err, s)
      | (none, s) => uploadEach env rest s

/-- `uploadManifests` sends manifests to kubectl in a particular order. -/
def uploadManifests (env : Env ρ) (c : Chart ρ) (s : State ρ) : Option Error × State ρ :=
  match uploadEach env c.Namespaces s with
  | (some err, s) => (some err, s)
  | (none, s) =>
  match uploadEach env c.Secrets s with
  | (some err, s) => (some err, s)
  | (none, s) =>
  match uploadEach env c.PersistentVolumes s with
  | (some err, s) => (some err, s)
  | (none, s) =>
  match uploadEach env c.Services s with
  | (some err, s) => (some err, s)
  | (none, s) =>
  match uploadEach env c.Pods s with
  | (some err, s) => (some err, s)
  | (none, s) =>
  match uploadEach env c.ReplicationControllers s with
  | (some err, s) => (some err, s)
  | (none, s) => (none, s)

/-- `chartInstalled` checks by chart directory name whether a chart is installed. -/
def chartInstalled (env : Env ρ) (chart home : String) (s : State ρ) : Bool :=
  let p := Join [home, env.WorkspaceChartPath, chart, "Chart.yaml"]
  match Stat s.fs p with
  | .error _ => false
  | .ok fi => if fi.IsDir then false else true

/-- `Install` loads a chart into Kubernetes. -/
def Install (env : Env ρ) (chart home namespace_ : String) (s : State ρ) :
    Outcome (State ρ) Unit :=
  let fetched : Outcome (State ρ) Unit :=
    if !chartInstalled env chart home s then
      let s := s.record (.Fetch chart chart home)
      match env.Fetch s chart chart home with
      | .died msg fs => .died msg { s with fs := fs }
      | .ok _ fs => .ok () { s with fs := fs }
    else .ok () s
  match fetched with
  | .died msg s => .died msg s
  | .ok _ s =>
    let cd := Join [home, env.WorkspaceChartPath, chart]
    let r := env.Load s cd
    let s := s.record (.Load cd r)
    match r with
    | .error _ => Die "Failed to load chart: %s" s
    | .ok c =>
      match uploadManifests env c s with
      | (some _, s) => Die "Failed to upload manifests: %s" s
      | (none, s) => .ok () s

/-! ## update.go -/

/-- `gitUpdate` updates a Git repo. -/
def gitUpdate (env : Env ρ) (git : GitRepo) (s : State ρ) : Option Error × State ρ :=
  let r := env.Update s git
  let s := { s with fs := r.2 }.record (.Update git r.1)
  match r.1 with
  | some err => (some err, s)
  | none => (none, s)

/-- `ensurePrereqs` verifies that Git and Kubectl are both available. -/
def ensurePrereqs (env : Env ρ) (s : State ρ) : Outcome (State ρ) Unit :=
  match env.LookPath s "git" with
  | .error _ => Die "Could not find 'git' on $PATH: %s" s
  | .ok _ =>
    match env.LookPath s "kubectl" with
    | .error _ => Die "Could not find 'kubectl' on $PATH: %s" s
    | .ok _ => .ok () s

/-- `ensureRepo` ensures that the repo exists and is checked out. -/
def ensureRepo (env : Env ρ) (repo home : String) (s : State ρ) :
    Outcome (State ρ) GitRepo :=
  match Chdir s.fs home with
  | .error _ => Die "Could not change to directory %q: %s" s
  | .ok fs =>
    let s := { s with fs := fs }
    let r := env.NewGitRepo s repo home
    let s := s.record (.NewGitRepo repo home r)
    match r with
    | .error _ => Die "Could not get repository %q: %s" s
    | .ok git =>
      let b := env.CheckLocal s git
      let s := s.record (.CheckLocal git b)
      if !b then
        let g := env.Get s git
        let s := { s with fs := g.2 }.record (.Get git g.1)
        match g.1 with
        | some _ => Die "Could not create repository in %q: %s" s
        | none => .ok git s
      else .ok git s

/-- The `for _, p := range helmpaths` loop of `ensureHome`. -/
def ensureHome.mkdirEach (home : String) : List String → State ρ → Outcome (State ρ) Unit
  | [], s => .ok () s
  | p :: rest, s =>
    let pp := Join [home, p]
    match MkdirAll s.fs pp with
    | (some _, fs) => Die "Could not create %q: %s" { s with fs := fs }
    | (none, fs) => ensureHome.mkdirEach home rest { s with fs := fs }

/-- `ensureHome` ensures that a HELM_HOME exists. -/
def ensureHome (env : Env ρ) (home : String) (s : State ρ) : Outcome (State ρ) Unit :=
  let created : Outcome (State ρ) Unit :=
    match Stat s.fs home with
    | .error _ => ensureHome.mkdirEach home env.helmpaths s
    | .ok fi => if !fi.IsDir then Die "%s must be a directory." s else .ok () s
  match created with
  | .died msg s => .died msg s
  | .ok _ s =>
    match Chdir s.fs home with
    | .error _ => Die "Could not change to directory %q: %s" s
    | .ok fs => .ok () { s with fs := fs }

/-- `Update` fetches the remote repo into the home directory. -/
def Update (env : Env ρ) (repo home : String) (s : State ρ) : Outcome (State ρ) Unit :=
  match Abs s.fs home with
  | .error _ => Die "Could not generate absolute path for %q: %s" s
  | .ok home =>
    match ensurePrereqs env s with
    | .died msg s => .died msg s
    | .ok _ s =>
      match ensureHome env home s with
      | .died msg s => .died msg s
      | .ok _ s =>
        let gitrepo := Join [home, env.CachePath]
        match ensureRepo env repo gitrepo s with
        | .died msg s => .died msg s
        | .ok git s =>
          match gitUpdate env git s with
          | (some _, s) => Die "Failed to update from Git: %s" s
          | (none, s) => .ok () s


/-! ## Reading the record -/

/-- The documents handed to `kubectlCreate`, in call order, each with the result
of the call. -/
def createCalls (cs : List (Call ρ)) : List (Bytes × Option Error) :=
  cs.filterMap fun c =>
    match c with
    | .kubectlCreate d r => some (d, r)
    | _ => none

/-- The values handed to `manifest.MarshalJSON`, in call order, each with the
version argument. -/
def marshalCalls (cs : List (Call ρ)) : List (ρ × String) :=
  cs.filterMap fun c =>
    match c with
    | .MarshalJSON o v => some (o, v)
    | _ => none

/-- The arguments of the calls of `Fetch`, in call order. -/
def fetchCalls (cs : List (Call ρ)) : List (String × String × String) :=
  cs.filterMap fun c =>
    match c with
    | .Fetch chart lname homedir => some (chart, lname, homedir)
    | _ => none

/-- The total order of the specification: all Namespaces, then all Secrets, then
all PersistentVolumes, then all Services, then all Pods, then all
ReplicationControllers, each category in its own sequence order. -/
def Chart.totalOrder (c : Chart ρ) : List ρ :=
  c.Namespaces ++ c.Secrets ++ c.PersistentVolumes ++ c.Services ++ c.Pods ++
    c.ReplicationControllers

/-- A fail-fast pass over a list of resources: the result, the values
serialized and the documents handed to `kubectlCreate` with their results. -/
inductive FailFast (env : Env ρ) :
    List ρ → Option Error → List (ρ × String) → List (Bytes × Option Error) → Prop
  | done : FailFast env [] none [] []
  | marshalFailed (o : ρ) (rest : List ρ) (err : Error) :
      env.MarshalJSON o "v1" = .error err →
      FailFast env (o :: rest) (some err) [(o, "v1")] []
  | createFailed (o : ρ) (rest : List ρ) (b : Bytes) (err : Error) :
      env.MarshalJSON o "v1" = .ok b →
      FailFast env (o :: rest) (some err) [(o, "v1")] [(b, some err)]
  | next (o : ρ) (rest : List ρ) (b : Bytes) (r : Option Error)
      (ms : List (ρ × String)) (ks : List (Bytes × Option Error)) :
      env.MarshalJSON o "v1" = .ok b →
      FailFast env rest r ms ks →
      FailFast env (o :: rest) r ((o, "v1") :: ms) ((b, none) :: ks)

/-! ## A sample environment

Resources are numbers; resource `n` serializes to the one-byte document `[n]`,
except resource `0`, which cannot be serialized.  The `kubectl` child exits with
status 1 when the document written to it is `[13]` and with status 0 otherwise.
-/

namespace Sample

/-- The last document written to a child's stdin. -/
def lastWrite : List (Call Nat) → Option Bytes
  | [] => none
  | .Write d _ :: cs => (lastWrite cs).orElse (fun _ => some d)
  | _ :: cs => lastWrite cs

/-- A file tree with the directories `/`, `/tmp`, `/tmp/home` and the regular
file `/tmp/helmfile`; the working directory is `/tmp`. -/
def fs : FS where
  nodes := fun loc =>
    if loc = [] ∨ loc = ["tmp"] ∨ loc = ["tmp", "home"] then some Node.dir
    else if loc = ["tmp", "helmfile"] then some Node.file
    else none
  cwd := ["tmp"]

/-- The sample chart. -/
def chart : Chart Nat where
  Namespaces := [1]
  Secrets := [2, 3]
  PersistentVolumes := []
  Services := [4]
  Pods := [5]
  ReplicationControllers := [6]

/-- A chart whose fourth resource is refused by `kubectl`. -/
def chartRefused : Chart Nat where
  Namespaces := [1]
  Secrets := [2, 3]
  PersistentVolumes := []
  Services := [13, 4]
  Pods := [5]
  ReplicationControllers := [6]

/-- A chart whose third resource cannot be serialized. -/
def chartUnserializable : Chart Nat where
  Namespaces := [1]
  Secrets := [2, 0, 3]
  PersistentVolumes := []
  Services := [4]
  Pods := []
  ReplicationControllers := [6]

/-- The sample environment. -/
def env : Env Nat where
  helmpaths := ["cache", "workspace"]
  WorkspaceChartPath := "workspace"
  CachePath := "cache"
  MarshalJSON := fun o _ => if o = 0 then .error (.other "unsupported type") else .ok [o]
  Load := fun s dir =>
    if s.fs.lookup dir = some Node.dir then .ok chart else .error (.notExist dir)
  Fetch := fun s _ lname homedir =>
    match MkdirAll s.fs (Join [homedir, "workspace", lname]) with
    | (some _, fs) => .died "Could not create chart directory" fs
    | (none, fs) => .ok () fs
  LookPath := fun _ file => .ok ("/usr/bin/" ++ file)
  StdinPipe := fun _ => none
  Start := fun _ => none
  Write := fun _ _ => none
  Wait := fun s => if lastWrite s.calls = some [13] then .exited 1 else .exited 0
  NewGitRepo := fun _ remote dir => .ok { remote := remote, dir := dir }
  CheckLocal := fun s git => s.fs.lookup (Join [git.dir, ".git"]) == some Node.dir
  Get := fun s git => MkdirAll s.fs (Join [git.dir, ".git"])
  Update := fun s _ => (none, s.fs)

/-- The sample environment on a machine where `kubectl` is not on the search path. -/
def envNoKubectl : Env Nat :=
  { env with
    LookPath := fun _ file =>
      if file = "kubectl" then .error (.notExist file) else .ok ("/usr/bin/" ++ file) }

/-- The sample state: the sample file tree and an empty record. -/
def start : State Nat where
  fs := fs
  calls := []

end Sample

/-! ## Lemmas: the record -/

theorem callsSince_of_append (s1 s2 : State ρ) (new : List (Call ρ))
    (h : s2.calls = s1.calls ++ new) : callsSince s1 s2 = new := by
  simp [callsSince, h]

theorem createCalls_append (xs ys : List (Call ρ)) :
    createCalls (xs ++ ys) = createCalls xs ++ createCalls ys := by
  simp [createCalls]

theorem marshalCalls_append (xs ys : List (Call ρ)) :
    marshalCalls (xs ++ ys) = marshalCalls xs ++ marshalCalls ys := by
  simp [marshalCalls]

/-! ## Lemmas: kubectlCreate and the loops -/

theorem fetchCalls_append (xs ys : List (Call ρ)) :
    fetchCalls (xs ++ ys) = fetchCalls xs ++ fetchCalls ys := by
  simp [fetchCalls]

theorem WaitStatus.err_eq_none (w : WaitStatus) : w.err = none ↔ w = .exited 0 := by
  cases w with
  | exited code => cases code <;> simp [WaitStatus.err]
  | failed err => simp [WaitStatus.err]

theorem kubectlCreate_cases (env : Env ρ) (data : Bytes) (s : State ρ) :
    (∃ err, kubectlCreate env data s = (some err, { s with calls := s.calls ++
        [.Command "kubectl" ["create", "-f", "-"], .StdinPipe (some err),
          .kubectlCreate data (some err)] })) ∨
    (∃ err, kubectlCreate env data s = (some err, { s with calls := s.calls ++
        [.Command "kubectl" ["create", "-f", "-"], .StdinPipe none, .Start (some err),
          .kubectlCreate data (some err)] })) ∨
    (∃ w, kubectlCreate env data s = (w.err, { s with calls := s.calls ++
        [.Command "kubectl" ["create", "-f", "-"], .StdinPipe none, .Start none,
          .Write data (env.Write (((s.record (.Command "kubectl" ["create", "-f", "-"])).record
            (.StdinPipe none)).record (.Start none)) data), .Close, .Wait w,
          .kubectlCreate data w.err] })) := by
  cases h1 : env.StdinPipe (s.record (.Command "kubectl" ["create", "-f", "-"])) with
  | some err =>
    refine Or.inl ⟨err, ?_⟩
    simp only [kubectlCreate, h1, kubectlCreate.returns]
    simp [State.record]
  | none =>
    cases h2 : env.Start ((s.record (.Command "kubectl" ["create", "-f", "-"])).record
        (.StdinPipe none)) with
    | some err =>
      refine Or.inr (Or.inl ⟨err, ?_⟩)
      simp only [kubectlCreate, h1, h2, kubectlCreate.returns]
      simp [State.record]
    | none =>
      refine Or.inr (Or.inr ⟨env.Wait (((((s.record (.Command "kubectl"
          ["create", "-f", "-"])).record (.StdinPipe none)).record (.Start none)).record
          (.Write data (env.Write (((s.record (.Command "kubectl"
            ["create", "-f", "-"])).record (.StdinPipe none)).record (.Start none))
            data))).record .Close), ?_⟩)
      simp only [kubectlCreate, h1, h2, kubectlCreate.returns]
      simp [State.record]

theorem kubectlCreate_record (env : Env ρ) (b : Bytes) (s : State ρ) :
    ∃ inner, (kubectlCreate env b s).2.calls = s.calls ++ inner ∧
      (kubectlCreate env b s).2.fs = s.fs ∧
      createCalls inner = [(b, (kubectlCreate env b s).1)] ∧
      marshalCalls inner = [] ∧ fetchCalls inner = [] := by
  rcases kubectlCreate_cases env b s with ⟨err, h⟩ | ⟨err, h⟩ | ⟨w, h⟩ <;>
    exact ⟨_, by rw [h], by rw [h], by rw [h]; simp [createCalls], by simp [marshalCalls],
      by simp [fetchCalls]⟩

theorem uploadEach_failFast (env : Env ρ) (xs : List ρ) :
    ∀ s : State ρ, ∃ new, (uploadEach env xs s).2.calls = s.calls ++ new ∧
      (uploadEach env xs s).2.fs = s.fs ∧ fetchCalls new = [] ∧
      FailFast env xs (uploadEach env xs s).1 (marshalCalls new) (createCalls new) := by
  induction xs with
  | nil => intro s; exact ⟨[], by simp [uploadEach], rfl, rfl, FailFast.done⟩
  | cons o rest ih =>
    intro s
    have hmk : ∀ l : List (Call ρ),
        marshalCalls (.MarshalJSON o "v1" :: l) = (o, "v1") :: marshalCalls l := fun _ => rfl
    have hck : ∀ l : List (Call ρ),
        createCalls (.MarshalJSON o "v1" :: l) = createCalls l := fun _ => rfl
    have hfk : ∀ l : List (Call ρ),
        fetchCalls (.MarshalJSON o "v1" :: l) = fetchCalls l := fun _ => rfl
    cases hm : env.MarshalJSON o "v1" with
    | error err =>
      refine ⟨[.MarshalJSON o "v1"], ?_, ?_, rfl, ?_⟩
      · simp only [uploadEach, hm]; rfl
      · simp only [uploadEach, hm]; rfl
      · simp only [uploadEach, hm]
        exact FailFast.marshalFailed o rest err hm
    | ok b =>
      obtain ⟨inner, hc, hfs, hk, hmc, hfc⟩ :=
        kubectlCreate_record env b (s.record (.MarshalJSON o "v1"))
      cases hr : kubectlCreate env b (s.record (.MarshalJSON o "v1")) with
      | mk r s1 =>
        rw [hr] at hc hfs hk
        simp only at hc hfs hk
        cases r with
        | some err =>
          refine ⟨.MarshalJSON o "v1" :: inner, ?_, ?_, ?_, ?_⟩
          · simp only [uploadEach, hm, hr]
            simp [hc, State.record]
          · simp only [uploadEach, hm, hr]
            simp [hfs, State.record]
          · rw [hfk, hfc]
          · simp only [uploadEach, hm, hr, hmk, hck, hk, hmc]
            exact FailFast.createFailed o rest b err hm
        | none =>
          obtain ⟨new, hn, hnfs, hnf, hrun⟩ := ih s1
          refine ⟨.MarshalJSON o "v1" :: (inner ++ new), ?_, ?_, ?_, ?_⟩
          · simp only [uploadEach, hm, hr]
            simp [hn, hc, State.record]
          · simp only [uploadEach, hm, hr]
            simp [hnfs, hfs, State.record]
          · rw [hfk, fetchCalls_append, hfc, hnf]; rfl
          · simp only [uploadEach, hm, hr, hmk, hck, marshalCalls_append, createCalls_append,
              hk, hmc, List.nil_append, List.singleton_append]
            exact FailFast.next o rest b _ _ _ hm hrun

theorem uploadEach_append (env : Env ρ) (xs ys : List ρ) :
    ∀ s : State ρ, uploadEach env (xs ++ ys) s =
      match uploadEach env xs s with
      | (some err, s1) => (some err, s1)
      | (none, s1) => uploadEach env ys s1 := by
  induction xs with
  | nil => intro s; simp [uploadEach]
  | cons o rest ih =>
    intro s
    simp only [List.cons_append, uploadEach]
    cases env.MarshalJSON o "v1" with
    | error err => rfl
    | ok b =>
      simp only
      cases hr : kubectlCreate env b (s.record (.MarshalJSON o "v1")) with
      | mk r s1 =>
        cases r with
        | some err => rfl
        | none => exact ih s1

theorem uploadManifests_eq_uploadEach (env : Env ρ) (c : Chart ρ) (s : State ρ) :
    uploadManifests env c s = uploadEach env c.totalOrder s := by
  simp only [Chart.totalOrder, uploadEach_append, uploadManifests]
  repeat' split
  all_goals simp_all

theorem uploadManifests_failFast (env : Env ρ) (c : Chart ρ) (s : State ρ) :
    ∃ new, (uploadManifests env c s).2.calls = s.calls ++ new ∧
      (uploadManifests env c s).2.fs = s.fs ∧ fetchCalls new = [] ∧
      FailFast env c.totalOrder (uploadManifests env c s).1 (marshalCalls new)
        (createCalls new) := by
  rw [uploadManifests_eq_uploadEach]
  exact uploadEach_failFast env c.totalOrder s

theorem FailFast.all_ok (env : Env ρ) {xs : List ρ} {r : Option Error}
    {ms : List (ρ × String)} {ks : List (Bytes × Option Error)}
    (h : FailFast env xs r ms ks)
    (hser : ∀ o ∈ xs, ∃ d, env.MarshalJSON o "v1" = .ok d)
    (hkube : ∀ p ∈ ks, p.2 = none) :
    r = none ∧
      ks.map (fun p => (Except.ok p.1 : Except Error Bytes)) =
        xs.map (fun o => env.MarshalJSON o "v1") ∧
      ms = xs.map (fun o => (o, "v1")) := by
  induction h with
  | done => simp
  | marshalFailed o rest err hm =>
    obtain ⟨d, hd⟩ := hser o (by simp)
    rw [hm] at hd; cases hd
  | createFailed o rest b err hm =>
    have := hkube (b, some err) (by simp)
    cases this
  | next o rest b r ms ks hm _ ih =>
    obtain ⟨h1, h2, h3⟩ := ih (fun o ho => hser o (List.mem_cons_of_mem _ ho))
      (fun p hp => hkube p (List.mem_cons_of_mem _ hp))
    exact ⟨h1, by simp [hm, h2], by simp [h3]⟩

theorem FailFast.create_fails (env : Env ρ) (pre : List ρ) (x : ρ) (post : List ρ)
    (e : Error) :
    ∀ {r : Option Error} {ms : List (ρ × String)} {ks : List (Bytes × Option Error)},
      FailFast env (pre ++ x :: post) r ms ks →
      (∀ p ∈ ks.take pre.length, p.2 = none) →
      (ks.map Prod.snd)[pre.length]? = some (some e) →
      r = some e ∧
        ks.map (fun p => (Except.ok p.1 : Except Error Bytes)) =
          (pre ++ [x]).map (fun o => env.MarshalJSON o "v1") ∧
        ms = (pre ++ [x]).map (fun o => (o, "v1")) := by
  induction pre with
  | nil =>
    intro r ms ks h _ hfail
    cases h with
    | marshalFailed _ _ err hm => simp at hfail
    | createFailed _ _ b err hm =>
      simp at hfail
      subst hfail
      simp [hm]
    | next _ _ b r ms ks hm hrest => simp at hfail
  | cons o pre ih =>
    intro r ms ks h hbefore hfail
    cases h with
    | marshalFailed _ _ err hm => simp at hfail
    | createFailed _ _ b err hm =>
      have := hbefore (b, some err) (by simp)
      cases this
    | next _ _ b r ms ks hm hrest =>
      obtain ⟨h1, h2, h3⟩ := ih hrest
        (fun p hp => hbefore p (by simp [List.take_succ_cons]; exact Or.inr hp))
        (by simpa using hfail)
      refine ⟨h1, ?_, ?_⟩
      · simp only [List.map_cons, List.cons_append, hm, h2]
      · simp only [List.cons_append, List.map_cons, h3]

theorem FailFast.marshal_fails (env : Env ρ) (pre : List ρ) (x : ρ) (post : List ρ)
    (e : Error) (hx : env.MarshalJSON x "v1" = .error e) :
    ∀ {r : Option Error} {ms : List (ρ × String)} {ks : List (Bytes × Option Error)},
      FailFast env (pre ++ x :: post) r ms ks →
      (∀ o ∈ pre, ∃ d, env.MarshalJSON o "v1" = .ok d) →
      (∀ p ∈ ks.take pre.length, p.2 = none) →
      r = some e ∧
        ks.map (fun p => ((Except.ok p.1 : Except Error Bytes), p.2)) =
          pre.map (fun o => (env.MarshalJSON o "v1", none)) ∧
        ms = (pre ++ [x]).map (fun o => (o, "v1")) := by
  induction pre with
  | nil =>
    intro r ms ks h _ _
    cases h with
    | marshalFailed _ _ err hm =>
      rw [hx] at hm; cases hm
      simp
    | createFailed _ _ b err hm => rw [hx] at hm; cases hm
    | next _ _ b r ms ks hm hrest => rw [hx] at hm; cases hm
  | cons o pre ih =>
    intro r ms ks h hser hbefore
    cases h with
    | marshalFailed _ _ err hm =>
      obtain ⟨d, hd⟩ := hser o (by simp)
      rw [hm] at hd; cases hd
    | createFailed _ _ b err hm =>
      have := hbefore (b, some err) (by simp)
      cases this
    | next _ _ b r ms ks hm hrest =>
      obtain ⟨h1, h2, h3⟩ := ih hrest
        (fun o ho => hser o (List.mem_cons_of_mem _ ho))
        (fun p hp => hbefore p (by simp [List.take_succ_cons]; exact Or.inr hp))
      refine ⟨h1, ?_, ?_⟩
      · simp only [List.map_cons, hm, h2]
      · simp only [List.cons_append, List.map_cons, h3]

/-! ## Lemmas: the file tree -/

theorem FS.grows_refl (fs : FS) : fs.grows fs := ⟨rfl, fun _ _ h => h⟩

theorem FS.grows_trans {fs fs1 fs2 : FS} (h1 : fs.grows fs1) (h2 : fs1.grows fs2) :
    fs.grows fs2 :=
  ⟨h2.1.trans h1.1, fun loc n h => h2.2 loc n (h1.2 loc n h)⟩

theorem FS.isDir_of_grows {fs fs1 : FS} (h : fs.grows fs1) (loc : List String)
    (hd : fs.isDir loc = true) : fs1.isDir loc = true := by
  simp only [FS.isDir, beq_iff_eq] at hd ⊢
  exact h.2 loc _ hd

theorem FS.walk_of_grows {fs fs1 : FS} (h : fs.grows fs1) (es : List String) :
    ∀ loc l, fs.walk loc es = some l → fs1.walk loc es = some l := by
  induction es with
  | nil => intro loc l hl; simpa [FS.walk] using hl
  | cons e es ih =>
    intro loc l hl
    simp only [FS.walk] at hl ⊢
    by_cases hd : fs.isDir loc = true
    · have hd1 := FS.isDir_of_grows h loc hd
      rw [if_pos hd] at hl
      rw [if_pos hd1]
      by_cases h1 : e = "" ∨ e = "."
      · rw [if_pos h1] at hl ⊢; exact ih _ _ hl
      · rw [if_neg h1] at hl ⊢
        by_cases h2 : e = ".."
        · rw [if_pos h2] at hl ⊢; exact ih _ _ hl
        · rw [if_neg h2] at hl ⊢; exact ih _ _ hl
    · rw [if_neg hd] at hl; cases hl

theorem FS.lookup_of_grows {fs fs1 : FS} (h : fs.grows fs1) (path : String) (n : Node)
    (hl : fs.lookup path = some n) : fs1.lookup path = some n := by
  have hstart : fs1.start path = fs.start path := by simp [FS.start, h.1]
  simp only [FS.lookup, FS.resolve, hstart] at hl ⊢
  by_cases hp : path = ""
  · rw [if_pos hp] at hl; cases hl
  · rw [if_neg hp] at hl ⊢
    cases hw : fs.walk (fs.start path) (elems path) with
    | none => rw [hw] at hl; cases hl
    | some l =>
      rw [hw] at hl
      rw [FS.walk_of_grows h _ _ _ hw]
      exact h.2 l n hl

theorem FS.walk_append (fs : FS) (xs ys : List String) :
    ∀ loc, fs.walk loc (xs ++ ys) = (fs.walk loc xs).bind (fun l => fs.walk l ys) := by
  induction xs with
  | nil => intro loc; simp [FS.walk]
  | cons e es ih =>
    intro loc
    simp only [List.cons_append, FS.walk]
    split
    · split
      · exact ih _
      · split
        · exact ih _
        · exact ih _
    · rfl

theorem FS.walk_empties (fs : FS) (es : List String) (loc : List String)
    (hes : ∀ e ∈ es, e = "") (hd : fs.isDir loc = true) : fs.walk loc es = some loc := by
  induction es with
  | nil => rfl
  | cons e es ih =>
    have he : e = "" := hes e (by simp)
    simp only [FS.walk, hd, if_true, he, true_or]
    exact ih (fun e h => hes e (List.mem_cons_of_mem _ h))

theorem List.rdropWhile_append_rest {α : Type} (p : α → Bool) (l : List α) :
    ∃ rest, l = l.rdropWhile p ++ rest ∧ ∀ x ∈ rest, p x = true := by
  refine ⟨(l.reverse.takeWhile p).reverse, ?_, ?_⟩
  · have := List.takeWhile_append_dropWhile p l.reverse
    have h2 := congrArg List.reverse this
    simp only [List.reverse_append, List.reverse_reverse] at h2
    exact h2.symm
  · intro x hx
    exact List.mem_takeWhile_imp (List.mem_reverse.1 hx)

theorem elems_empty : elems "" = [""] := rfl

theorem Mkdir_ok (fs fs2 : FS) (path : String) (h : Mkdir fs path = .ok fs2) :
    fs.grows fs2 ∧ fs2.lookup path = some Node.dir := by
  simp only [Mkdir] at h
  cases hlast : ((elems path).rdropWhile (fun e => e == "")).getLast? with
  | none => simp [hlast] at h
  | some name =>
    simp only [hlast] at h
    cases hw : fs.walk (fs.start path) ((elems path).rdropWhile (fun e => e == "")).dropLast with
    | none => simp [hw] at h
    | some parent =>
      simp only [hw] at h
      by_cases hpd : fs.isDir parent = false
      · simp [hpd] at h
      · rw [if_neg hpd] at h
        split at h
        · cases h
        · rename_i hname
          simp only [not_or] at hname
          obtain ⟨hdot, hdotdot, hnone⟩ := hname
          have hfree : fs.nodes (parent ++ [name]) = none := by
            simpa using hnone
          cases h
          have hg : fs.grows { fs with nodes := fun loc =>
              if loc = parent ++ [name] then some Node.dir else fs.nodes loc } := by
            refine ⟨rfl, fun loc n hn => ?_⟩
            by_cases hloc : loc = parent ++ [name]
            · rw [hloc, hfree] at hn; cases hn
            · simp [hloc, hn]
          refine ⟨hg, ?_⟩
          have hpd1 : fs.isDir parent = true := by simpa using hpd
          obtain ⟨rest, hsplit, hrest⟩ :=
            List.rdropWhile_append_rest (fun e => e == "") (elems path)
          have hes : (elems path).rdropWhile (fun e => e == "") =
              ((elems path).rdropWhile (fun e => e == "")).dropLast ++ [name] :=
            (List.dropLast_append_getLast? name hlast).symm
          have hne : ((elems path).rdropWhile (fun e => e == "")) ≠ [] := by
            intro hnil; rw [hnil] at hlast; simp at hlast
          have hnonempty : name ≠ "" := by
            have := List.rdropWhile_last_not (fun e => e == "") (elems path) hne
            have hl2 : ((elems path).rdropWhile (fun e => e == "")).getLast hne = name := by
              have := List.getLast?_eq_getLast _ hne
              rw [hlast] at this
              exact (Option.some.inj this).symm
            rw [hl2] at this
            simpa using this
          have hpath : path ≠ "" := by
            intro hp
            rw [hp, elems_empty] at hne
            exact hne (by decide)
          have hd2 : FS.isDir { fs with nodes := fun loc =>
              if loc = parent ++ [name] then some Node.dir else fs.nodes loc } parent = true :=
            FS.isDir_of_grows hg parent hpd1
          have hw2 := FS.walk_of_grows hg _ _ _ hw
          have hstep : FS.walk { fs with nodes := fun loc =>
              if loc = parent ++ [name] then some Node.dir else fs.nodes loc } parent [name] =
              some (parent ++ [name]) := by
            simp only [FS.walk, hd2, if_true]
            rw [if_neg (by simp [hnonempty, hdot]), if_neg hdotdot]
          have hrestw : FS.walk { fs with nodes := fun loc =>
              if loc = parent ++ [name] then some Node.dir else fs.nodes loc }
              (parent ++ [name]) rest = some (parent ++ [name]) :=
            FS.walk_empties _ rest _ (fun e he => by simpa using hrest e he)
              (by simp [FS.isDir])
          have hel : elems path = ((elems path).rdropWhile (fun e => e == "")).dropLast ++
              ([name] ++ rest) := by
            rw [← List.append_assoc, ← hes]; exact hsplit
          have hall : FS.walk { fs with nodes := fun loc =>
              if loc = parent ++ [name] then some Node.dir else fs.nodes loc }
              (fs.start path) (elems path) = some (parent ++ [name]) := by
            rw [hel, FS.walk_append, hw2, Option.some_bind, FS.walk_append, hstep,
              Option.some_bind, hrestw]
          have hstart : FS.start { fs with nodes := fun loc =>
              if loc = parent ++ [name] then some Node.dir else fs.nodes loc } path =
              fs.start path := rfl
          simp only [FS.lookup, FS.resolve, hstart, hall]
          rw [if_neg hpath]
          simp

theorem MkdirAll.go_ok (fuel : Nat) :
    ∀ (fs fs1 : FS) (path : String), MkdirAll.go fuel fs path = (none, fs1) →
      fs.grows fs1 ∧ fs1.lookup path = some Node.dir := by
  induction fuel with
  | zero => intro fs fs1 path h; simp [MkdirAll.go] at h
  | succ fuel ih =>
    intro fs fs1 path h
    simp only [MkdirAll.go] at h
    cases hst : Stat fs path with
    | ok fi =>
      simp only [hst] at h
      cases hfi : fi.IsDir with
      | false => simp [hfi] at h
      | true =>
        simp only [hfi, if_true, Prod.mk.injEq, true_and] at h
        subst h
        refine ⟨FS.grows_refl fs, ?_⟩
        simp only [Stat] at hst
        cases hl : fs.lookup path with
        | none => simp [hl] at hst
        | some n =>
          simp only [hl, Except.ok.injEq] at hst
          rw [← hst] at hfi
          simp at hfi
          rw [hfi]
    | error err =>
      simp only [hst] at h
      have key : ∀ fsP : FS, fs.grows fsP →
          (match Mkdir fsP path with
            | .ok fs2 => ((none : Option Error), fs2)
            | .error err =>
              match Stat fsP path with
              | .ok fi => if fi.IsDir then (none, fsP) else (some err, fsP)
              | .error _ => (some err, fsP)) = (none, fs1) →
          fs.grows fs1 ∧ fs1.lookup path = some Node.dir := by
        intro fsP hg1 h
        cases hmk : Mkdir fsP path with
        | ok fs2 =>
          simp only [hmk, Prod.mk.injEq, true_and] at h
          subst h
          obtain ⟨h1, h2⟩ := Mkdir_ok _ _ _ hmk
          exact ⟨FS.grows_trans hg1 h1, h2⟩
        | error err2 =>
          simp only [hmk] at h
          cases hst2 : Stat fsP path with
          | error err3 => simp [hst2] at h
          | ok fi =>
            simp only [hst2] at h
            cases hfi : fi.IsDir with
            | false => simp [hfi] at h
            | true =>
              simp only [hfi, if_true, Prod.mk.injEq, true_and] at h
              subst h
              refine ⟨hg1, ?_⟩
              simp only [Stat] at hst2
              cases hl : fsP.lookup path with
              | none => simp [hl] at hst2
              | some n =>
                simp only [hl, Except.ok.injEq] at hst2
                rw [← hst2] at hfi
                simp at hfi
                rw [hfi]
      cases hp : MkdirAll.parent path with
      | none =>
        simp only [hp] at h
        exact key fs (FS.grows_refl fs) h
      | some parent =>
        simp only [hp] at h
        cases hgo : MkdirAll.go fuel fs parent with
        | mk r fsP =>
          simp only [hgo] at h
          cases r with
          | some err1 => simp at h
          | none => exact key fsP (ih _ _ _ hgo).1 h

theorem MkdirAll_ok (fs fs1 : FS) (path : String) (h : MkdirAll fs path = (none, fs1)) :
    fs.grows fs1 ∧ fs1.lookup path = some Node.dir :=
  MkdirAll.go_ok _ fs fs1 path h

theorem Chdir_ok (fs fs1 : FS) (path : String) (h : Chdir fs path = .ok fs1) :
    fs1.nodes = fs.nodes ∧ fs.resolve path = some fs1.cwd ∧
      fs.lookup path = some Node.dir := by
  simp only [Chdir] at h
  cases hr : fs.resolve path with
  | none => simp [hr] at h
  | some loc =>
    simp only [hr] at h
    by_cases hd : fs.isDir loc = true
    · simp only [hd, if_true, Except.ok.injEq] at h
      subst h
      refine ⟨rfl, rfl, ?_⟩
      simp only [FS.lookup, hr, Option.some_bind]
      simpa [FS.isDir] using hd
    · simp [hd] at h


theorem MkdirAll.parent_length (path q : String) (h : MkdirAll.parent path = some q) :
    q.length < path.length := by
  simp only [MkdirAll.parent] at h
  split at h
  · rename_i hlen
    cases h
    have h1 := (List.dropWhile_sublist (fun c => c != '/')
      (l := path.data.reverse.dropWhile (fun c => c == '/'))).length_le
    have h2 := (List.dropWhile_sublist (fun c => c == '/') (l := path.data.reverse)).length_le
    simp only [String.length, List.length_reverse, List.length_tail] at *
    omega
  · cases h

theorem MkdirAll.go_fuel (n : Nat) :
    ∀ (m : Nat) (fs : FS) (path : String), path.length < n → path.length < m →
      MkdirAll.go n fs path = MkdirAll.go m fs path := by
  induction n with
  | zero => intro m fs path h; omega
  | succ n ih =>
    intro m fs path hn hm
    cases m with
    | zero => omega
    | succ m =>
      simp only [MkdirAll.go]
      cases hp : MkdirAll.parent path with
      | none => rfl
      | some q =>
        have hq := MkdirAll.parent_length path q hp
        simp only [ih m fs q (by omega) (by omega)]

/-- Enough fuel: `MkdirAll` never stops for lack of it. -/
theorem MkdirAll_fuel (fs : FS) (path : String) (n : Nat) (h : path.length < n) :
    MkdirAll.go n fs path = MkdirAll fs path :=
  MkdirAll.go_fuel n (path.length + 1) fs path h (by omega)

theorem mkdirEach_ok (home : String) (ps : List String) :
    ∀ s : State ρ, (ensureHome.mkdirEach home ps s).isDied = false →
      s.fs.grows (ensureHome.mkdirEach home ps s).state.fs ∧
      (ensureHome.mkdirEach home ps s).state.calls = s.calls ∧
      ∀ p ∈ ps,
        (ensureHome.mkdirEach home ps s).state.fs.lookup (Join [home, p]) = some Node.dir := by
  induction ps with
  | nil => intro s _; exact ⟨FS.grows_refl _, rfl, by simp⟩
  | cons p rest ih =>
    intro s hs
    simp only [ensureHome.mkdirEach] at hs ⊢
    cases hm : MkdirAll s.fs (Join [home, p]) with
    | mk r fs1 =>
      cases r with
      | some err => simp [hm, Die, Outcome.isDied] at hs
      | none =>
        simp only [hm] at hs ⊢
        obtain ⟨hg, hdir⟩ := MkdirAll_ok _ _ _ hm
        obtain ⟨h1, h2, h3⟩ := ih { s with fs := fs1 } hs
        refine ⟨FS.grows_trans hg h1, h2, ?_⟩
        intro q hq
        rcases List.mem_cons.1 hq with rfl | hq
        · exact FS.lookup_of_grows h1 _ _ hdir
        · exact h3 q hq

theorem mkdirEach_calls (home : String) (ps : List String) :
    ∀ s : State ρ, (ensureHome.mkdirEach home ps s).state.calls = s.calls := by
  induction ps with
  | nil => intro s; rfl
  | cons p rest ih =>
    intro s
    simp only [ensureHome.mkdirEach]
    cases hm : MkdirAll s.fs (Join [home, p]) with
    | mk r fs1 =>
      cases r with
      | some err => rfl
      | none => exact ih _

theorem ensureHome_calls (env : Env ρ) (home : String) (s : State ρ) :
    (ensureHome env home s).state.calls = s.calls := by
  cases hst : Stat s.fs home with
  | error err =>
    have hc := mkdirEach_calls home env.helmpaths s
    cases hmk : ensureHome.mkdirEach home env.helmpaths s with
    | died msg s1 =>
      rw [hmk] at hc
      simpa [ensureHome, hst, hmk, Outcome.state] using hc
    | ok u s1 =>
      rw [hmk] at hc
      cases hcd : Chdir s1.fs home <;>
        simpa [ensureHome, hst, hmk, hcd, Die, Outcome.state] using hc
  | ok fi =>
    cases hfd : fi.IsDir with
    | false => simp [ensureHome, hst, hfd, Die, Outcome.state]
    | true =>
      cases hcd : Chdir s.fs home <;> simp [ensureHome, hst, hfd, hcd, Die, Outcome.state]

/-! ## Lemmas: the install workflow -/

/-- The part of `Install` after the fetch: load, then upload. -/
theorem Install_after_fetch (env : Env ρ) (chart home : String) (s s0 : State ρ)
    (F : List (Call ρ)) (hF : s0.calls = s.calls ++ F) (out : Outcome (State ρ) Unit)
    (hout : out = (match env.Load s0 (Join [home, env.WorkspaceChartPath, chart]) with
      | .error _ => Die "Failed to load chart: %s"
          (s0.record (.Load (Join [home, env.WorkspaceChartPath, chart])
            (env.Load s0 (Join [home, env.WorkspaceChartPath, chart]))))
      | .ok c =>
        match uploadManifests env c
          (s0.record (.Load (Join [home, env.WorkspaceChartPath, chart])
            (env.Load s0 (Join [home, env.WorkspaceChartPath, chart])))) with
        | (some _, s2) => Die "Failed to upload manifests: %s" s2
        | (none, s2) => .ok () s2)) :
    fetchCalls (callsSince s out.state) = fetchCalls F ∧
    (∀ err, env.Load s0 (Join [home, env.WorkspaceChartPath, chart]) = .error err →
      out = .died "Failed to load chart: %s"
        (s0.record (.Load (Join [home, env.WorkspaceChartPath, chart]) (.error err))) ∧
      marshalCalls (callsSince s out.state) = marshalCalls F ∧
      createCalls (callsSince s out.state) = createCalls F) ∧
    (∀ c, env.Load s0 (Join [home, env.WorkspaceChartPath, chart]) = .ok c →
      out.state = (uploadManifests env c
        (s0.record (.Load (Join [home, env.WorkspaceChartPath, chart]) (.ok c)))).2 ∧
      (out.isDied = true ↔ (uploadManifests env c
        (s0.record (.Load (Join [home, env.WorkspaceChartPath, chart]) (.ok c)))).1 ≠
          none)) := by
  cases hl : env.Load s0 (Join [home, env.WorkspaceChartPath, chart]) with
  | error err =>
    simp only [hl] at hout
    subst hout
    have hcalls : (Die "Failed to load chart: %s" (s0.record
        (.Load (Join [home, env.WorkspaceChartPath, chart]) (.error err))) :
          Outcome (State ρ) Unit).state.calls = s.calls ++
        (F ++ [.Load (Join [home, env.WorkspaceChartPath, chart]) (.error err)]) := by
      simp [Die, Outcome.state, State.record, hF]
    rw [callsSince_of_append s _ _ hcalls]
    refine ⟨?_, ?_, ?_⟩
    · rw [fetchCalls_append]; simp [fetchCalls]
    · intro err1 h1
      cases h1
      refine ⟨rfl, ?_, ?_⟩
      · rw [marshalCalls_append]; simp [marshalCalls]
      · rw [createCalls_append]; simp [createCalls]
    · intro c hc; cases hc
  | ok c =>
    simp only [hl] at hout
    obtain ⟨new, hnew, _, hnf, _⟩ := uploadManifests_failFast env c
      (s0.record (.Load (Join [home, env.WorkspaceChartPath, chart]) (.ok c)))
    have hs1 : (s0.record (.Load (Join [home, env.WorkspaceChartPath, chart])
        (.ok c))).calls = s.calls ++ F ++
          [.Load (Join [home, env.WorkspaceChartPath, chart]) (.ok c)] := by
      simp [State.record, hF]
    have hstate : out.state = (uploadManifests env c (s0.record
        (.Load (Join [home, env.WorkspaceChartPath, chart]) (.ok c)))).2 := by
      rw [hout]
      cases hu : uploadManifests env c (s0.record
          (.Load (Join [home, env.WorkspaceChartPath, chart]) (.ok c))) with
      | mk r s2 => cases r <;> rfl
    refine ⟨?_, ?_, ?_⟩
    · rw [callsSince_of_append s _
        (F ++ [.Load (Join [home, env.WorkspaceChartPath, chart]) (.ok c)] ++ new)]
      · simp only [fetchCalls_append, hnf]; simp [fetchCalls]
      · rw [hstate, hnew, hs1]; simp
    · intro err herr; cases herr
    · intro c1 hc1
      cases hc1
      refine ⟨hstate, ?_⟩
      rw [hout]
      cases hu : uploadManifests env c (s0.record
          (.Load (Join [home, env.WorkspaceChartPath, chart]) (.ok c))) with
      | mk r s2 => cases r <;> simp [Die, Outcome.isDied]

/-! ## The ordered deployment driver -/

/-- C1: when every resource of the chart serializes and every call of
`kubectlCreate` made by the run succeeds, `uploadManifests` returns nil, and the
documents handed to `kubectlCreate` are, in order, the serializations with
version "v1" of the Namespaces, then the Secrets, the PersistentVolumes, the
Services, the Pods and the ReplicationControllers, each resource once. -/
theorem uploadManifests_applies_total_order (env : Env ρ) (c : Chart ρ) (s : State ρ)
    (hser : ∀ o ∈ c.totalOrder, ∃ d, env.MarshalJSON o "v1" = .ok d)
    (hkube : ∀ p ∈ createCalls (callsSince s (uploadManifests env c s).2), p.2 = none) :
    (uploadManifests env c s).1 = none ∧
      (createCalls (callsSince s (uploadManifests env c s).2)).map
          (fun p => (Except.ok p.1 : Except Error Bytes)) =
        (c.Namespaces ++ c.Secrets ++ c.PersistentVolumes ++ c.Services ++ c.Pods ++
          c.ReplicationControllers).map (fun o => env.MarshalJSON o "v1") ∧
      marshalCalls (callsSince s (uploadManifests env c s).2) =
        (c.Namespaces ++ c.Secrets ++ c.PersistentVolumes ++ c.Services ++ c.Pods ++
          c.ReplicationControllers).map (fun o => (o, "v1")) := by
  obtain ⟨new, hnew, _, _, hrun⟩ := uploadManifests_failFast env c s
  rw [callsSince_of_append _ _ _ hnew] at hkube ⊢
  exact FailFast.all_ok env hrun hser hkube

theorem uploadManifests_applies_total_order_witness :
    (uploadManifests Sample.env Sample.chart Sample.start).1 = none ∧
      createCalls (callsSince Sample.start
        (uploadManifests Sample.env Sample.chart Sample.start).2) =
        [([1], none), ([2], none), ([3], none), ([4], none), ([5], none), ([6], none)] := by
  have h := uploadManifests_applies_total_order Sample.env Sample.chart Sample.start
    (fun o ho => ⟨[o], by
      have h0 : o ≠ 0 := by rintro rfl; exact absurd ho (by decide)
      simp [Sample.env, h0]⟩)
    (by decide)
  exact ⟨h.1, by decide⟩

/-- C2: when the first `N-1` calls of `kubectlCreate` made by the run return nil
and the `N`th returns the error `e`, where `N` is the position of resource `x` in
the total order, `uploadManifests` returns `e`; the documents handed to
`kubectlCreate` are exactly the serializations of resources `1..N` in order, each
once, and exactly resources `1..N` were serialized: nothing after `N` is
serialized or handed to `kubectlCreate`. -/
theorem uploadManifests_stops_at_failed_create (env : Env ρ) (c : Chart ρ) (s : State ρ)
    (pre : List ρ) (x : ρ) (post : List ρ) (e : Error)
    (hsplit : c.totalOrder = pre ++ x :: post)
    (hbefore : ∀ p ∈ (createCalls (callsSince s (uploadManifests env c s).2)).take pre.length,
      p.2 = none)
    (hfail : ((createCalls (callsSince s (uploadManifests env c s).2)).map
      Prod.snd)[pre.length]? = some (some e)) :
    (uploadManifests env c s).1 = some e ∧
      (createCalls (callsSince s (uploadManifests env c s).2)).map
          (fun p => (Except.ok p.1 : Except Error Bytes)) =
        (pre ++ [x]).map (fun o => env.MarshalJSON o "v1") ∧
      marshalCalls (callsSince s (uploadManifests env c s).2) =
        (pre ++ [x]).map (fun o => (o, "v1")) := by
  obtain ⟨new, hnew, _, _, hrun⟩ := uploadManifests_failFast env c s
  rw [callsSince_of_append _ _ _ hnew] at hbefore hfail ⊢
  rw [hsplit] at hrun
  exact FailFast.create_fails env pre x post e hrun hbefore hfail

theorem uploadManifests_stops_at_failed_create_witness :
    (uploadManifests Sample.env Sample.chartRefused Sample.start).1 =
        some (Error.exitStatus 1) ∧
      createCalls (callsSince Sample.start
        (uploadManifests Sample.env Sample.chartRefused Sample.start).2) =
        [([1], none), ([2], none), ([3], none), ([13], some (Error.exitStatus 1))] ∧
      marshalCalls (callsSince Sample.start
        (uploadManifests Sample.env Sample.chartRefused Sample.start).2) =
        [(1, "v1"), (2, "v1"), (3, "v1"), (13, "v1")] := by
  have h := uploadManifests_stops_at_failed_create Sample.env Sample.chartRefused
    Sample.start [1, 2, 3] 13 [4, 5, 6] (Error.exitStatus 1) (by decide) (by decide)
    (by decide)
  exact ⟨h.1, by decide, h.2.2⟩

/-- C3: when `manifest.MarshalJSON` fails with `e` on resource `x`, the resources
before `x` in the total order all serialize, and the calls of `kubectlCreate` made
for them return nil, `uploadManifests` returns `e`; the calls of `kubectlCreate`
are exactly those for the resources before `x`, in order, each once, so none is
made for `x` or for any later resource of any category, and nothing after `x` is
serialized. -/
theorem uploadManifests_stops_at_failed_marshal (env : Env ρ) (c : Chart ρ) (s : State ρ)
    (pre : List ρ) (x : ρ) (post : List ρ) (e : Error)
    (hsplit : c.totalOrder = pre ++ x :: post)
    (hser : ∀ o ∈ pre, ∃ d, env.MarshalJSON o "v1" = .ok d)
    (hx : env.MarshalJSON x "v1" = .error e)
    (hbefore : ∀ p ∈ (createCalls (callsSince s (uploadManifests env c s).2)).take pre.length,
      p.2 = none) :
    (uploadManifests env c s).1 = some e ∧
      (createCalls (callsSince s (uploadManifests env c s).2)).map
          (fun p => ((Except.ok p.1 : Except Error Bytes), p.2)) =
        pre.map (fun o => (env.MarshalJSON o "v1", none)) ∧
      marshalCalls (callsSince s (uploadManifests env c s).2) =
        (pre ++ [x]).map (fun o => (o, "v1")) := by
  obtain ⟨new, hnew, _, _, hrun⟩ := uploadManifests_failFast env c s
  rw [callsSince_of_append _ _ _ hnew] at hbefore ⊢
  rw [hsplit] at hrun
  exact FailFast.marshal_fails env pre x post e hx hrun hser hbefore

theorem uploadManifests_stops_at_failed_marshal_witness :
    (uploadManifests Sample.env Sample.chartUnserializable Sample.start).1 =
        some (Error.other "unsupported type") ∧
      createCalls (callsSince Sample.start
        (uploadManifests Sample.env Sample.chartUnserializable Sample.start).2) =
        [([1], none), ([2], none)] ∧
      marshalCalls (callsSince Sample.start
        (uploadManifests Sample.env Sample.chartUnserializable Sample.start).2) =
        [(1, "v1"), (2, "v1"), (0, "v1")] := by
  have h := uploadManifests_stops_at_failed_marshal Sample.env Sample.chartUnserializable
    Sample.start [1, 2] 0 [3, 4, 6] (Error.other "unsupported type") (by decide)
    (fun o ho => ⟨[o], by
      have h0 : o ≠ 0 := by rintro rfl; exact absurd ho (by decide)
      simp [Sample.env, h0]⟩)
    rfl (by decide)
  exact ⟨h.1, by decide, h.2.2⟩

/-! ## The installed-marker check -/

/-- C4: `chartInstalled(chart, home)` is true exactly when a node that is not a
directory lives at `Join(home, WorkspaceChartPath, chart, "Chart.yaml")`; it is
false when `os.Stat` fails on that path (nothing lives there) and when a
directory lives there. -/
theorem chartInstalled_iff_marker_file (env : Env ρ) (chart home : String) (s : State ρ) :
    (chartInstalled env chart home s = true ↔
      s.fs.lookup (Join [home, env.WorkspaceChartPath, chart, "Chart.yaml"]) =
        some Node.file) ∧
    ((∃ err, Stat s.fs (Join [home, env.WorkspaceChartPath, chart, "Chart.yaml"]) =
        .error err) → chartInstalled env chart home s = false) ∧
    (s.fs.lookup (Join [home, env.WorkspaceChartPath, chart, "Chart.yaml"]) =
        none → chartInstalled env chart home s = false) ∧
    (s.fs.lookup (Join [home, env.WorkspaceChartPath, chart, "Chart.yaml"]) =
        some Node.dir → chartInstalled env chart home s = false) := by
  simp only [chartInstalled, Stat]
  cases hn : s.fs.lookup (Join [home, env.WorkspaceChartPath, chart, "Chart.yaml"]) with
  | none => simp
  | some n => cases n <;> simp

/-! ## Workspace bootstrap -/

/-- C5, as amended: when `ensureHome(home)` completes without a fatal error, then
in the file tree it leaves, seen from the working directory it started in, a
directory lives at `home`; if `os.Stat(home)` failed before the call, every entry
of `helmpaths` joined under `home` is a directory there too; if `os.Stat(home)`
succeeded, the file tree is left as it was. -/
theorem ensureHome_completes (env : Env ρ) (home : String) (s : State ρ)
    (h : (ensureHome env home s).isDied = false) :
    FS.lookup { (ensureHome env home s).state.fs with cwd := s.fs.cwd } home =
      some Node.dir ∧
    ((∃ err, Stat s.fs home = .error err) →
      ∀ p ∈ env.helmpaths,
        FS.lookup { (ensureHome env home s).state.fs with cwd := s.fs.cwd }
          (Join [home, p]) = some Node.dir) ∧
    ((∃ fi, Stat s.fs home = .ok fi) →
      (ensureHome env home s).state.fs.nodes = s.fs.nodes) := by
  cases hst : Stat s.fs home with
  | error err =>
    cases hmk : ensureHome.mkdirEach home env.helmpaths s with
    | died msg s1 => simp [ensureHome, hst, hmk, Outcome.isDied] at h
    | ok u s1 =>
      have hnd : (ensureHome.mkdirEach home env.helmpaths s).isDied = false := by
        simp [hmk, Outcome.isDied]
      obtain ⟨hg, _, hsub⟩ := mkdirEach_ok home env.helmpaths s hnd
      simp only [hmk, Outcome.state] at hg hsub
      cases hcd : Chdir s1.fs home with
      | error err => simp [ensureHome, hst, hmk, hcd, Die, Outcome.isDied] at h
      | ok fs2 =>
        obtain ⟨hnodes, _, hdir⟩ := Chdir_ok _ _ _ hcd
        have heq : ensureHome env home s = .ok () { s1 with fs := fs2 } := by
          simp [ensureHome, hst, hmk, hcd]
        have hafter : ({ fs2 with cwd := s.fs.cwd } : FS) = s1.fs := by
          cases hs1 : s1.fs with
          | mk nodes cwd =>
            rw [hs1] at hnodes hg
            have hc : cwd = s.fs.cwd := hg.1
            simp only at hnodes
            rw [hnodes, hc]
        rw [heq]
        simp only [Outcome.state, hafter]
        refine ⟨hdir, fun _ p hp => hsub p hp, ?_⟩
        rintro ⟨fi, hfi⟩; cases hfi
  | ok fi =>
    cases hfd : fi.IsDir with
    | false => simp [ensureHome, hst, hfd, Die, Outcome.isDied] at h
    | true =>
      cases hcd : Chdir s.fs home with
      | error err => simp [ensureHome, hst, hfd, hcd, Die, Outcome.isDied] at h
      | ok fs2 =>
        obtain ⟨hnodes, _, hdir⟩ := Chdir_ok _ _ _ hcd
        have heq : ensureHome env home s = .ok () { s with fs := fs2 } := by
          simp [ensureHome, hst, hfd, hcd]
        have hafter : ({ fs2 with cwd := s.fs.cwd } : FS) = s.fs := by
          cases hs1 : s.fs with
          | mk nodes cwd =>
            rw [hs1] at hnodes
            simp only at hnodes
            rw [hnodes]
        rw [heq]
        simp only [Outcome.state, hafter]
        refine ⟨hdir, ?_, fun _ => hnodes⟩
        rintro ⟨err, herr⟩; cases herr

theorem ensureHome_completes_witness :
    FS.lookup { (ensureHome Sample.env "/tmp/fresh" Sample.start).state.fs with
      cwd := Sample.start.fs.cwd } "/tmp/fresh" = some Node.dir ∧
    FS.lookup { (ensureHome Sample.env "/tmp/fresh" Sample.start).state.fs with
      cwd := Sample.start.fs.cwd } "/tmp/fresh/cache" = some Node.dir ∧
    FS.lookup { (ensureHome Sample.env "/tmp/fresh" Sample.start).state.fs with
      cwd := Sample.start.fs.cwd } "/tmp/fresh/workspace" = some Node.dir := by
  have h := ensureHome_completes Sample.env "/tmp/fresh" Sample.start (by decide)
  refine ⟨h.1, ?_, ?_⟩
  · exact h.2.1 ⟨_, rfl⟩ "cache" (by decide)
  · exact h.2.1 ⟨_, rfl⟩ "workspace" (by decide)

/-- C5, as stated, fails: `/tmp/home` exists as a directory without
subdirectories; `ensureHome` completes, and the required subdirectory `cache`
does not exist afterwards. -/
theorem ensureHome_existing_home_creates_nothing :
    Sample.start.fs.lookup "/tmp/home" = some Node.dir ∧
    (ensureHome Sample.env "/tmp/home" Sample.start).isDied = false ∧
    "cache" ∈ Sample.env.helmpaths ∧
    FS.lookup { (ensureHome Sample.env "/tmp/home" Sample.start).state.fs with
      cwd := Sample.start.fs.cwd } (Join ["/tmp/home", "cache"]) = none := by
  decide

/-- C6: when a regular file lives at `home`, `ensureHome(home)` terminates the
process, and the state is the one it started from: no node was created and the
working directory is the same. -/
theorem ensureHome_regular_file_dies (env : Env ρ) (home : String) (s : State ρ)
    (h : s.fs.lookup home = some Node.file) :
    ensureHome env home s = .died "%s must be a directory." s := by
  simp [ensureHome, Stat, h, Die]

theorem ensureHome_regular_file_dies_witness :
    ensureHome Sample.env "/tmp/helmfile" Sample.start =
      .died "%s must be a directory." Sample.start :=
  ensureHome_regular_file_dies Sample.env "/tmp/helmfile" Sample.start (by decide)

/-! ## Prerequisites -/

/-- C9: when `git` or `kubectl` cannot be resolved on the search path, `Update`
terminates the process in the state it started from: no directory was created,
the working directory is the same, and no call was made (no local-copy check,
clone or update of the repository). -/
theorem Update_dies_without_prereqs (env : Env ρ) (repo home : String) (s : State ρ)
    (h : (∃ err, env.LookPath s "git" = .error err) ∨
      (∃ err, env.LookPath s "kubectl" = .error err)) :
    ∃ msg, Update env repo home s = .died msg s := by
  cases ha : Abs s.fs home with
  | error err =>
    exact ⟨"Could not generate absolute path for %q: %s", by simp [Update, ha, Die]⟩
  | ok home1 =>
    cases hg : env.LookPath s "git" with
    | error err =>
      exact ⟨"Could not find 'git' on $PATH: %s", by simp [Update, ha, ensurePrereqs, hg, Die]⟩
    | ok p =>
      cases hk : env.LookPath s "kubectl" with
      | error err =>
        exact ⟨"Could not find 'kubectl' on $PATH: %s",
          by simp [Update, ha, ensurePrereqs, hg, hk, Die]⟩
      | ok q =>
        rcases h with ⟨err, h⟩ | ⟨err, h⟩
        · rw [hg] at h; cases h
        · rw [hk] at h; cases h

theorem Update_dies_without_prereqs_witness :
    ∃ msg, Update Sample.envNoKubectl "https://example.com/charts" "/tmp/home"
      Sample.start = .died msg Sample.start :=
  Update_dies_without_prereqs Sample.envNoKubectl "https://example.com/charts" "/tmp/home"
    Sample.start (Or.inr ⟨_, rfl⟩)

/-! ## The cluster applier -/

/-- C10: what `kubectlCreate(data)` returns and records is decided by the results
of `StdinPipe`, `Start` and `Wait`.  If the stdin pipe cannot be created it returns
that error; the child is not started and nothing is written.  If the child cannot
be started it returns that error and nothing is written.  Otherwise `data` is
written to the pipe, the pipe is closed, the child is waited on, and the error of
the wait is returned, whatever the write returned.  It returns nil only when the
pipe was created, the child was started and it exited with status zero. -/
theorem kubectlCreate_result (env : Env ρ) (data : Bytes) (s : State ρ) :
    let s1 := s.record (.Command "kubectl" ["create", "-f", "-"])
    let s2 := s1.record (.StdinPipe none)
    let s3 := s2.record (.Start none)
    let s4 := (s3.record (.Write data (env.Write s3 data))).record .Close
    (∀ err, env.StdinPipe s1 = some err →
      kubectlCreate env data s = (some err, { s with calls := s.calls ++
        [.Command "kubectl" ["create", "-f", "-"], .StdinPipe (some err),
          .kubectlCreate data (some err)] })) ∧
    (env.StdinPipe s1 = none → ∀ err, env.Start s2 = some err →
      kubectlCreate env data s = (some err, { s with calls := s.calls ++
        [.Command "kubectl" ["create", "-f", "-"], .StdinPipe none, .Start (some err),
          .kubectlCreate data (some err)] })) ∧
    (env.StdinPipe s1 = none → env.Start s2 = none →
      kubectlCreate env data s = ((env.Wait s4).err, { s with calls := s.calls ++
        [.Command "kubectl" ["create", "-f", "-"], .StdinPipe none, .Start none,
          .Write data (env.Write s3 data), .Close, .Wait (env.Wait s4),
          .kubectlCreate data (env.Wait s4).err] })) ∧
    ((kubectlCreate env data s).1 = none →
      env.StdinPipe s1 = none ∧ env.Start s2 = none ∧ env.Wait s4 = .exited 0) := by
  intro s1 s2 s3 s4
  refine ⟨?_, ?_, ?_, ?_⟩
  · intro err h1
    simp only [kubectlCreate, s1] at h1 ⊢
    simp only [h1, kubectlCreate.returns]
    simp [State.record]
  · intro h1 err h2
    simp only [kubectlCreate, s1, s2] at h1 h2 ⊢
    simp only [h1, h2, kubectlCreate.returns]
    simp [State.record]
  · intro h1 h2
    simp only [kubectlCreate, s1, s2, s3, s4] at h1 h2 ⊢
    simp only [h1, h2, kubectlCreate.returns]
    simp [State.record]
  · intro hnil
    cases h1 : env.StdinPipe s1 with
    | some err =>
      simp only [s1] at h1
      simp [kubectlCreate, h1, kubectlCreate.returns] at hnil
    | none =>
      cases h2 : env.Start s2 with
      | some err =>
        simp only [s1, s2] at h1 h2
        simp [kubectlCreate, h1, h2, kubectlCreate.returns] at hnil
      | none =>
        refine ⟨rfl, rfl, ?_⟩
        simp only [s1, s2] at h1 h2
        simp only [kubectlCreate, h1, h2, kubectlCreate.returns] at hnil
        exact (WaitStatus.err_eq_none _).1 hnil

theorem kubectlCreate_result_witness :
    kubectlCreate Sample.env [13] Sample.start =
      (some (Error.exitStatus 1), { Sample.start with calls :=
        [.Command "kubectl" ["create", "-f", "-"], .StdinPipe none, .Start none,
          .Write [13] none, .Close, .Wait (.exited 1),
          .kubectlCreate [13] (some (Error.exitStatus 1))] }) :=
  (kubectlCreate_result Sample.env [13] Sample.start).2.2.1 rfl rfl

/-! ## The install workflow -/

/-- C7: `Install` calls `Fetch(chart, chart, home)` exactly when
`chartInstalled(chart, home)` is false, before anything else; if `Fetch`
terminates the process, so does `Install`, in the state `Fetch` left.  Otherwise
`model.Load` is called on `Join(home, WorkspaceChartPath, chart)` in the state
`s0` reached so far.  If it fails, the process dies right after the load, and no
resource is serialized or applied.  If it returns a chart, the rest of the run is
`uploadManifests` on that chart, and the process dies exactly when
`uploadManifests` returns an error. -/
theorem Install_fetch_load_upload (env : Env ρ) (chart home ns : String) (s : State ρ) :
    let cd := Join [home, env.WorkspaceChartPath, chart]
    let sF := s.record (.Fetch chart chart home)
    fetchCalls (callsSince s (Install env chart home ns s).state) =
        (if chartInstalled env chart home s then [] else [(chart, chart, home)]) ∧
    (chartInstalled env chart home s = false →
      ∀ msg fs, env.Fetch sF chart chart home = .died msg fs →
        Install env chart home ns s = .died msg { sF with fs := fs }) ∧
    (∀ s0 : State ρ,
      ((chartInstalled env chart home s = true ∧ s0 = s) ∨
       (chartInstalled env chart home s = false ∧
        ∃ fs, env.Fetch sF chart chart home = .ok () fs ∧ s0 = { sF with fs := fs })) →
      (∀ err, env.Load s0 cd = .error err →
        Install env chart home ns s =
          .died "Failed to load chart: %s" (s0.record (.Load cd (.error err))) ∧
        marshalCalls (callsSince s (Install env chart home ns s).state) = [] ∧
        createCalls (callsSince s (Install env chart home ns s).state) = []) ∧
      (∀ c, env.Load s0 cd = .ok c →
        (Install env chart home ns s).state =
          (uploadManifests env c (s0.record (.Load cd (.ok c)))).2 ∧
        ((Install env chart home ns s).isDied = true ↔
          (uploadManifests env c (s0.record (.Load cd (.ok c)))).1 ≠ none))) := by
  intro cd sF
  cases hci : chartInstalled env chart home s with
  | true =>
    obtain ⟨h1, h2, h3⟩ := Install_after_fetch env chart home s s [] (by simp)
      (Install env chart home ns s) (by simp only [Install, hci]; rfl)
    refine ⟨by simpa [fetchCalls] using h1, fun h => (by cases h), ?_⟩
    rintro s0 (⟨_, rfl⟩ | ⟨h, _⟩)
    · exact ⟨fun err he => by simpa [marshalCalls, createCalls] using h2 err he, h3⟩
    · cases h
  | false =>
    cases hf : env.Fetch sF chart chart home with
    | died msg fs =>
      have hout : Install env chart home ns s = .died msg { sF with fs := fs } := by
        simp only [sF] at hf
        simp [Install, hci, hf, sF]
      refine ⟨?_, ?_, ?_⟩
      · rw [hout, callsSince_of_append s _ [.Fetch chart chart home]]
        · simp [fetchCalls]
        · simp [Outcome.state, State.record, sF]
      · intro _ msg1 fs1 h1
        cases h1
        exact hout
      · rintro s0 (⟨h, _⟩ | ⟨_, fs1, h1, _⟩)
        · cases h
        · cases h1
    | ok u fs =>
      obtain ⟨h1, h2, h3⟩ := Install_after_fetch env chart home s { sF with fs := fs }
        [.Fetch chart chart home] (by simp [State.record, sF]) (Install env chart home ns s)
        (by simp only [sF] at hf; simp only [Install, hci, hf]; rfl)
      refine ⟨by simpa [fetchCalls] using h1, ?_, ?_⟩
      · intro _ msg1 fs1 h1
        cases h1
      · rintro s0 (⟨h, _⟩ | ⟨_, fs1, hfs1, rfl⟩)
        · cases h
        · cases hfs1
          exact ⟨fun err he => by simpa [marshalCalls, createCalls] using h2 err he, h3⟩

theorem Install_fetch_load_upload_witness :
    fetchCalls (callsSince Sample.start
      (Install Sample.env "mychart" "/tmp/home" "default" Sample.start).state) =
        [("mychart", "mychart", "/tmp/home")] ∧
    (Install Sample.env "mychart" "/tmp/home" "default" Sample.start).isDied = false ∧
    createCalls (callsSince Sample.start
      (Install Sample.env "mychart" "/tmp/home" "default" Sample.start).state) =
        [([1], none), ([2], none), ([3], none), ([4], none), ([5], none), ([6], none)] := by
  have h := Install_fetch_load_upload Sample.env "mychart" "/tmp/home" "default" Sample.start
  exact ⟨h.1, by decide, by decide⟩

/-! ## Repository sync -/

/-- C8: the repository sync of `Update`, once the prerequisites are found and the
bootstrap `ensureHome` has returned in state `s1`: `ensureRepo(repo, dir)` with
`dir = Join(home, CachePath)`, then `gitUpdate`.  If `os.Chdir(dir)` or
`vcs.NewGitRepo` fails, the process dies and nothing is cloned or updated.
Otherwise `git.CheckLocal` is asked once.  If it reports a local copy, `git.Get`
is not called and `git.Update` is called once.  If it reports none, `git.Get` is
called once; if the clone fails the process dies without an update, and if it
succeeds `git.Update` is called once, after it.  Once `git.Update` has been
called, the process dies exactly when it returned an error. -/
theorem Update_repository_sync (env : Env ρ) (repo home : String) (s : State ρ)
    (home1 : String) (s1 : State ρ)
    (habs : Abs s.fs home = .ok home1)
    (hgit : ∃ p, env.LookPath s "git" = .ok p)
    (hkubectl : ∃ p, env.LookPath s "kubectl" = .ok p)
    (hhome : ensureHome env home1 s = .ok () s1) :
    let dir := Join [home1, env.CachePath]
    ((∃ err, Chdir s1.fs dir = .error err) →
      Update env repo home s = .died "Could not change to directory %q: %s" s1 ∧
      s1.calls = s.calls) ∧
    (∀ fs1, Chdir s1.fs dir = .ok fs1 →
      let s2 : State ρ := { s1 with fs := fs1 }
      (∀ err, env.NewGitRepo s2 repo dir = .error err →
        Update env repo home s = .died "Could not get repository %q: %s"
          { s2 with calls := s.calls ++ [.NewGitRepo repo dir (.error err)] }) ∧
      (∀ git, env.NewGitRepo s2 repo dir = .ok git →
        let s3 := s2.record (.NewGitRepo repo dir (.ok git))
        (env.CheckLocal s3 git = true →
          let s4 := s3.record (.CheckLocal git true)
          (Update env repo home s).state =
            { fs := (env.Update s4 git).2,
              calls := s.calls ++ [.NewGitRepo repo dir (.ok git), .CheckLocal git true,
                .Update git (env.Update s4 git).1] } ∧
          ((Update env repo home s).isDied = true ↔ (env.Update s4 git).1 ≠ none)) ∧
        (env.CheckLocal s3 git = false →
          let s4 := s3.record (.CheckLocal git false)
          let s5 : State ρ :=
            ⟨(env.Get s4 git).2, s4.calls ++ [.Get git (env.Get s4 git).1]⟩
          (∀ err, (env.Get s4 git).1 = some err →
            Update env repo home s = .died "Could not create repository in %q: %s"
              { s5 with calls := s.calls ++ [.NewGitRepo repo dir (.ok git),
                .CheckLocal git false, .Get git (some err)] }) ∧
          ((env.Get s4 git).1 = none →
            (Update env repo home s).state =
              { fs := (env.Update s5 git).2,
                calls := s.calls ++ [.NewGitRepo repo dir (.ok git), .CheckLocal git false,
                  .Get git none, .Update git (env.Update s5 git).1] } ∧
            ((Update env repo home s).isDied = true ↔ (env.Update s5 git).1 ≠ none))))) := by
  intro dir
  obtain ⟨p, hp⟩ := hgit
  obtain ⟨q, hq⟩ := hkubectl
  have hcalls : s1.calls = s.calls := by
    have := ensureHome_calls env home1 s
    rw [hhome] at this
    exact this
  obtain ⟨fs0, calls0⟩ := s1
  simp only at hcalls
  subst hcalls
  have hcalls : (⟨fs0, s.calls⟩ : State ρ).calls = s.calls := rfl
  have hU : Update env repo home s =
      match ensureRepo env repo dir ⟨fs0, s.calls⟩ with
      | .died msg s2 => .died msg s2
      | .ok git s2 =>
        match gitUpdate env git s2 with
        | (some _, s3) => Die "Failed to update from Git: %s" s3
        | (none, s3) => .ok () s3 := by
    simp only [Update, habs, ensurePrereqs, hp, hq, hhome, dir]
  have hG : ∀ (git : GitRepo) (s2 : State ρ),
      (match gitUpdate env git s2 with
        | (some _, s3) => (Die "Failed to update from Git: %s" s3 : Outcome (State ρ) Unit)
        | (none, s3) => .ok () s3).state =
        { fs := (env.Update s2 git).2,
          calls := s2.calls ++ [.Update git (env.Update s2 git).1] } ∧
      ((match gitUpdate env git s2 with
        | (some _, s3) => (Die "Failed to update from Git: %s" s3 : Outcome (State ρ) Unit)
        | (none, s3) => .ok () s3).isDied = true ↔ (env.Update s2 git).1 ≠ none) := by
    intro git s2
    simp only [gitUpdate]
    cases (env.Update s2 git).1 <;> simp [Die, Outcome.state, Outcome.isDied, State.record]
  refine ⟨?_, ?_⟩
  · rintro ⟨err, hcd⟩
    refine ⟨?_, hcalls⟩
    rw [hU]
    simp [ensureRepo, hcd, Die]
  · intro fs1 hcd s2
    refine ⟨?_, ?_⟩
    · intro err hn
      rw [hU]
      simp only [s2] at hn
      simp [ensureRepo, hcd, hn, Die, State.record, hcalls]
    · intro git hn s3
      simp only [s2] at hn
      refine ⟨?_, ?_⟩
      · intro hb s4
        have hb1 : env.CheckLocal ((⟨fs1, s.calls⟩ : State ρ).record
            (.NewGitRepo repo dir (.ok git))) git = true := hb
        have hE : ensureRepo env repo dir ⟨fs0, s.calls⟩ = .ok git s4 := by
          simp only [ensureRepo, hcd, hn, hb1, Bool.not_true, Bool.false_eq_true, if_false]
        rw [hU, hE]
        have := hG git s4
        simpa [s4, s3, s2, State.record, hcalls] using this
      · intro hb s4 s5
        have hb1 : env.CheckLocal ((⟨fs1, s.calls⟩ : State ρ).record
            (.NewGitRepo repo dir (.ok git))) git = false := hb
        refine ⟨?_, ?_⟩
        · intro err hg
          have hg1 : (env.Get (((⟨fs1, s.calls⟩ : State ρ).record
              (.NewGitRepo repo dir (.ok git))).record (.CheckLocal git false)) git).1 =
                some err := hg
          rw [hU]
          simp only [ensureRepo, hcd, hn, hb1, hg1, Bool.not_false, if_true]
          simp [Die, s5, s4, s3, s2, State.record]
        · intro hg
          have hg1 : (env.Get (((⟨fs1, s.calls⟩ : State ρ).record
              (.NewGitRepo repo dir (.ok git))).record (.CheckLocal git false)) git).1 =
                none := hg
          have hg3 := hg1
          simp only [State.record, List.append_assoc, List.singleton_append,
            List.nil_append] at hg3
          have hE : ensureRepo env repo dir ⟨fs0, s.calls⟩ = .ok git s5 := by
            simp only [ensureRepo, hcd, hn, hb1, hg1, Bool.not_false, if_true]
            simp [s5, s4, s3, s2, State.record, hg3]
          rw [hU, hE]
          have := hG git s5
          simpa [s5, s4, s3, s2, State.record, hg3] using this

theorem Update_repository_sync_witness :
    (Update Sample.env "https://example.com/charts" "/tmp/fresh" Sample.start).isDied =
      false ∧
    (Update Sample.env "https://example.com/charts" "/tmp/fresh" Sample.start).state.calls =
      [.NewGitRepo "https://example.com/charts" "/tmp/fresh/cache"
          (.ok ⟨"https://example.com/charts", "/tmp/fresh/cache"⟩),
        .CheckLocal ⟨"https://example.com/charts", "/tmp/fresh/cache"⟩ false,
        .Get ⟨"https://example.com/charts", "/tmp/fresh/cache"⟩ none,
        .Update ⟨"https://example.com/charts", "/tmp/fresh/cache"⟩ none] := by
  have h := Update_repository_sync Sample.env "https://example.com/charts" "/tmp/fresh"
    Sample.start "/tmp/fresh" (ensureHome Sample.env "/tmp/fresh" Sample.start).state
    rfl ⟨_, rfl⟩ ⟨_, rfl⟩ rfl
  have h2 := (((h.2 _ rfl).2 ⟨"https://example.com/charts", "/tmp/fresh/cache"⟩ rfl).2
    rfl).2 rfl
  exact ⟨by decide, congrArg State.calls h2.1⟩

end Helm
